import Mathlib

set_option maxHeartbeats 1000000

namespace VoronoiVisualizer

/-- Planar point with exact rational coordinates, modelling the point_type
(point_data with double coordinates) of the visualizer. -/
structure Point where
  x : ℚ
  y : ℚ
deriving DecidableEq, BEq

/-- Input line segment, modelling segment_type. -/
structure Segment where
  low : Point
  high : Point
deriving DecidableEq, BEq

/-- Axis-aligned rectangle, modelling rect_type (rectangle_data). -/
structure Rect where
  xl : ℚ
  yl : ℚ
  xh : ℚ
  yh : ℚ
deriving DecidableEq

/-- Boost encompass: grow a rectangle so that it includes the given point. -/
def encompass (r : Rect) (p : Point) : Rect :=
  ⟨min r.xl p.x, min r.yl p.y, max r.xh p.x, max r.yh p.y⟩

/-- GLWidget.update_brect.  The running bounding-box state is the pair of the
flag brect_initialized_ and the rectangle brect_: the first observed point
initializes a degenerate rectangle, later points are encompassed. -/
def update_brect : Bool × Rect → Point → Bool × Rect
  | (true, r), p => (true, encompass r p)
  | (false, _), p => (true, ⟨p.x, p.y, p.x, p.y⟩)

/-- Accumulate the bounding box over a list of site coordinates, starting from
the uninitialized state, exactly as read_data does while ingesting input. -/
def foldBrect (pts : List Point) : Bool × Rect :=
  pts.foldl update_brect (false, ⟨0, 0, 0, 0⟩)

/-- Boost bloat: pad a rectangle by the given amount in all four directions. -/
def bloat (r : Rect) (d : ℚ) : Rect :=
  ⟨r.xl - d, r.yl - d, r.xh + d, r.yh + d⟩

/-- GLWidget.construct_brect: take the larger dimension of the accumulated
box, recenter on its centroid (stored in shift_), collapse the rectangle to
that center point and bloat it by 1.2 times the larger dimension.  Returns
the new shift_ point together with the finalized brect_. -/
def construct_brect (brect : Rect) : Point × Rect :=
  let side := max (brect.xh - brect.xl) (brect.yh - brect.yl)
  let shift : Point := ⟨(brect.xl + brect.xh) / 2, (brect.yl + brect.yh) / 2⟩
  let collapsed : Rect := ⟨shift.x, shift.y, shift.x, shift.y⟩
  (shift, bloat collapsed (side * (6 / 5)))

/-- Boost source categories as used by the visualizer. -/
inductive SourceCategory where
  | singlePoint
  | segmentStartPoint
  | segmentEndPoint
  | initialSegment
  | reverseSegment
deriving DecidableEq, BEq

/-- Whether a source category belongs to a point site. -/
def SourceCategory.isPointCategory : SourceCategory → Bool
  | .singlePoint => true
  | .segmentStartPoint => true
  | .segmentEndPoint => true
  | _ => false

/-- A diagram cell: source index plus source category, exactly the data that
retrieve_point and retrieve_segment read from a boost voronoi cell. -/
structure Cell where
  source_index : Nat
  source_category : SourceCategory
deriving DecidableEq, BEq

/-- Boost cell.contains_point(). -/
def Cell.contains_point (c : Cell) : Bool := c.source_category.isPointCategory

/-- Boost cell.contains_segment(). -/
def Cell.contains_segment (c : Cell) : Bool := !c.source_category.isPointCategory

/-- GLWidget.retrieve_point, translated clause by clause: a single-point cell
indexes point_data_, otherwise the index is rebased past point_data_ and the
low or high endpoint of the segment is returned. -/
def retrieve_point (pd : List Point) (sd : List Segment) (c : Cell) : Point :=
  if c.source_category = .singlePoint then
    pd.getD c.source_index ⟨0, 0⟩
  else
    let index := c.source_index - pd.length
    if c.source_category = .segmentStartPoint then
      (sd.getD index ⟨⟨0, 0⟩, ⟨0, 0⟩⟩).low
    else
      (sd.getD index ⟨⟨0, 0⟩, ⟨0, 0⟩⟩).high

/-- GLWidget.retrieve_segment. -/
def retrieve_segment (pd : List Point) (sd : List Segment) (c : Cell) : Segment :=
  sd.getD (c.source_index - pd.length) ⟨⟨0, 0⟩, ⟨0, 0⟩⟩

/-- Data of one half-edge as consumed by clip_infinite_edge and
sample_curved_edge: its cell, the cell of the twin, and the two optional
endpoint vertices (none models a NULL vertex pointer). -/
structure EdgeData where
  cell : Cell
  twinCell : Cell
  vertex0 : Option Point
  vertex1 : Option Point
deriving DecidableEq, BEq

/-- The ray origin computed by the first half of clip_infinite_edge: for two
point sites the midpoint of the two points, otherwise the location of the
point site. -/
def edgeOrigin (pd : List Point) (sd : List Segment) (edge : EdgeData) : Point :=
  let cell1 := edge.cell
  let cell2 := edge.twinCell
  if cell1.contains_point && cell2.contains_point then
    let p1 := retrieve_point pd sd cell1
    let p2 := retrieve_point pd sd cell2
    ⟨(p1.x + p2.x) * (1 / 2), (p1.y + p2.y) * (1 / 2)⟩
  else
    if cell1.contains_segment then retrieve_point pd sd cell2
    else retrieve_point pd sd cell1

/-- The ray direction computed by the first half of clip_infinite_edge: for
two point sites the 90 degree rotation of the point-to-point vector, for a
segment and a point the segment vector rotated one way or the other according
to the exclusive-or tie-break of the source. -/
def edgeDirection (pd : List Point) (sd : List Segment) (edge : EdgeData) : Point :=
  let cell1 := edge.cell
  let cell2 := edge.twinCell
  if cell1.contains_point && cell2.contains_point then
    let p1 := retrieve_point pd sd cell1
    let p2 := retrieve_point pd sd cell2
    ⟨p1.y - p2.y, p2.x - p1.x⟩
  else
    let origin := if cell1.contains_segment then retrieve_point pd sd cell2
                  else retrieve_point pd sd cell1
    let segment := if cell1.contains_segment then retrieve_segment pd sd cell1
                   else retrieve_segment pd sd cell2
    let dx := segment.high.x - segment.low.x
    let dy := segment.high.y - segment.low.y
    if (segment.low == origin) ^^ cell1.contains_point then ⟨dy, -dx⟩
    else ⟨-dy, dx⟩

/-- GLWidget.clip_infinite_edge, translated over exact rational arithmetic;
the origin and direction block of the source is factored into the two named
definitions above.  The brect argument is the finalized bounding rectangle
brect_ at the time prepare_edges runs. -/
def clip_infinite_edge (pd : List Point) (sd : List Segment) (brect : Rect)
    (edge : EdgeData) : List Point :=
  let origin := edgeOrigin pd sd edge
  let direction := edgeDirection pd sd edge
  let side := brect.xh - brect.xl
  let koef := side / max |direction.x| |direction.y|
  let p0 : Point :=
    match edge.vertex0 with
    | none => ⟨origin.x - direction.x * koef, origin.y - direction.y * koef⟩
    | some v => ⟨v.x, v.y⟩
  let p1 : Point :=
    match edge.vertex1 with
    | none => ⟨origin.x + direction.x * koef, origin.y + direction.y * koef⟩
    | some v => ⟨v.x, v.y⟩
  [p0, p1]

/-- GLWidget.sample_curved_edge.  The adaptive discretization itself is done
by the external numeric utility voronoi_visual_utils discretize; the
visualizer only selects its arguments, so the embedding returns the focus
point, the directrix segment and the tolerance handed to discretize. -/
def sample_curved_edge (pd : List Point) (sd : List Segment) (brect : Rect)
    (edge : EdgeData) : Point × Segment × ℚ :=
  let max_dist := (1 / 1000) * (brect.xh - brect.xl)
  let point := if edge.cell.contains_point then retrieve_point pd sd edge.cell
               else retrieve_point pd sd edge.twinCell
  let segment := if edge.cell.contains_point then retrieve_segment pd sd edge.twinCell
                 else retrieve_segment pd sd edge.cell
  (point, segment, max_dist)

/-- Membership of a point in a rectangle, boundary included. -/
def insideRect (r : Rect) (p : Point) : Prop :=
  r.xl ≤ p.x ∧ p.x ≤ r.xh ∧ r.yl ≤ p.y ∧ p.y ≤ r.yh

/-- Strict membership of a point in the interior of a rectangle. -/
def strictlyInsideRect (r : Rect) (p : Point) : Prop :=
  r.xl < p.x ∧ p.x < r.xh ∧ r.yl < p.y ∧ p.y < r.yh

/-- The point lies strictly outside the rectangle. -/
def strictlyOutsideRect (r : Rect) (p : Point) : Prop :=
  p.x < r.xl ∨ r.xh < p.x ∨ p.y < r.yl ∨ r.yh < p.y

instance (r : Rect) (p : Point) : Decidable (insideRect r p) := by
  unfold insideRect; infer_instance

instance (r : Rect) (p : Point) : Decidable (strictlyInsideRect r p) := by
  unfold strictlyInsideRect; infer_instance

instance (r : Rect) (p : Point) : Decidable (strictlyOutsideRect r p) := by
  unfold strictlyOutsideRect; infer_instance

/-- The EXTERNAL color marker written by color_exterior. -/
def EXTERNAL_COLOR : Nat := 1

/-- The half-edge and vertex adjacency of a voronoi diagram, addressed by
stable indices: entry e of twin is the twin of half-edge e, vertex1 its end
vertex (none modelling a NULL pointer), rotNext its rotational successor, and
entry v of incidentEdge the representative incident edge of vertex v.  The
lists play the role of the edge and vertex records of the external boost
diagram. -/
structure Diagram where
  twin : List Nat
  vertex1 : List (Option Nat)
  isPrimary : List Bool
  rotNext : List Nat
  incidentEdge : List Nat
deriving DecidableEq

/-- Number of half-edges of the diagram. -/
def Diagram.numEdges (d : Diagram) : Nat := d.twin.length

/-- Number of vertices of the diagram. -/
def Diagram.numVerts (d : Diagram) : Nat := d.incidentEdge.length

/-- Boost edge.twin().  Out-of-range indices default to themselves. -/
def Diagram.twinOf (d : Diagram) (e : Nat) : Nat := d.twin.getD e e

/-- Boost edge.vertex1(). -/
def Diagram.vertex1Of (d : Diagram) (e : Nat) : Option Nat := d.vertex1.getD e none

/-- Boost edge.vertex0(), which is the end vertex of the twin. -/
def Diagram.vertex0Of (d : Diagram) (e : Nat) : Option Nat := d.vertex1Of (d.twinOf e)

/-- Boost edge.is_primary(). -/
def Diagram.isPrimaryOf (d : Diagram) (e : Nat) : Bool := d.isPrimary.getD e false

/-- Boost edge.rot_next().  Out-of-range indices default to themselves. -/
def Diagram.rotNextOf (d : Diagram) (e : Nat) : Nat := d.rotNext.getD e e

/-- Boost vertex.incident_edge(). -/
def Diagram.incidentEdgeOf (d : Diagram) (v : Nat) : Nat := d.incidentEdge.getD v 0

/-- Boost edge.is_finite(): both endpoint vertices are present. -/
def Diagram.isFiniteEdge (d : Diagram) (e : Nat) : Bool :=
  (d.vertex0Of e).isSome && (d.vertex1Of e).isSome

/-- The mutable color tags of the diagram, modelled as side tables indexed
like the edge and vertex lists (all tags are initially 0 in boost). -/
structure CState where
  ecolor : List Nat
  vcolor : List Nat
deriving DecidableEq

/-- Read the color tag of half-edge e. -/
def CState.getEdge (s : CState) (e : Nat) : Nat := s.ecolor.getD e 0

/-- Write the color tag of half-edge e. -/
def CState.setEdge (s : CState) (e : Nat) (c : Nat) : CState :=
  { s with ecolor := s.ecolor.set e c }

/-- Read the color tag of vertex v. -/
def CState.getVert (s : CState) (v : Nat) : Nat := s.vcolor.getD v 0

/-- Write the color tag of vertex v. -/
def CState.setVert (s : CState) (v : Nat) (c : Nat) : CState :=
  { s with vcolor := s.vcolor.set v c }

mutual

/-- GLWidget.color_exterior, translated statement by statement.  The C++
function recurses through an unbounded call graph, so the embedding threads an
explicit fuel argument bounding the call depth; the fuel-stability theorem
below shows that past an explicit bound the fuel never runs out. -/
def color_exterior (d : Diagram) : Nat → Nat → CState → CState
  | 0, _, s => s
  | fuel + 1, e, s =>
    if s.getEdge e = EXTERNAL_COLOR then s
    else
      let s1 := (s.setEdge e EXTERNAL_COLOR).setEdge (d.twinOf e) EXTERNAL_COLOR
      match d.vertex1Of e with
      | none => s1
      | some v =>
        if d.isPrimaryOf e then
          let s2 := s1.setVert v EXTERNAL_COLOR
          rot_ring_loop d fuel (d.incidentEdgeOf v) (d.incidentEdgeOf v) s2
        else s1

/-- The do-while loop of color_exterior: visit cur, step to rot_next, stop
when back at the incident edge the loop started from. -/
def rot_ring_loop (d : Diagram) : Nat → Nat → Nat → CState → CState
  | 0, _, _, s => s
  | fuel + 1, start, cur, s =>
    let s1 := color_exterior d fuel cur s
    let nxt := d.rotNextOf cur
    if nxt = start then s1 else rot_ring_loop d fuel start nxt s1

end

/-- Fuel that is always sufficient for color_exterior, as established by the
fuel-stability theorem. -/
def fuelBound (d : Diagram) : Nat := d.numEdges * (d.numEdges + 1) + 1

/-- The all-zero color state matching a freshly built diagram. -/
def initState (d : Diagram) : CState :=
  ⟨List.replicate d.numEdges 0, List.replicate d.numVerts 0⟩

/-- One iteration of the exterior coloring loop of GLWidget.build: skip
finite edges, start the flood fill at non-finite ones. -/
def passStep (d : Diagram) (t : CState) (e : Nat) : CState :=
  if d.isFiniteEdge e then t else color_exterior d (fuelBound d) e t

/-- The exterior-coloring loop of GLWidget.build: call color_exterior on
every non-finite half-edge of the diagram. -/
def color_exterior_pass (d : Diagram) (s : CState) : CState :=
  (List.range d.numEdges).foldl (passStep d) s

/-- Structural well-formedness of the diagram arena: the side lists are
indexed like the edge list and twins stay in range. -/
def Diagram.WF (d : Diagram) : Prop :=
  d.vertex1.length = d.numEdges ∧ d.isPrimary.length = d.numEdges ∧
  d.rotNext.length = d.numEdges ∧ ∀ e < d.numEdges, d.twinOf e < d.numEdges

/-- Twin pairing invariant: edge.twin().twin() == edge. -/
def Diagram.TwinInvol (d : Diagram) : Prop :=
  ∀ e < d.numEdges, d.twinOf (d.twinOf e) = e

/-- Closed rotational lists: iterating rot_next from any edge returns to that
edge within numEdges steps. -/
def Diagram.RingClosed (d : Diagram) : Prop :=
  ∀ e < d.numEdges, ∃ m < d.numEdges, (d.rotNextOf)^[m + 1] e = e

/-- Edge-color symmetry: every half-edge carries the same color as its twin. -/
def Diagram.EdgeColorsSym (d : Diagram) (s : CState) : Prop :=
  ∀ e < d.numEdges, s.getEdge e = s.getEdge (d.twinOf e)

instance (d : Diagram) : Decidable d.WF := by
  unfold Diagram.WF; infer_instance

instance (d : Diagram) : Decidable d.TwinInvol := by
  unfold Diagram.TwinInvol; infer_instance

instance (d : Diagram) : Decidable d.RingClosed := by
  unfold Diagram.RingClosed; infer_instance

instance (d : Diagram) (s : CState) : Decidable (d.EdgeColorsSym s) := by
  unfold Diagram.EdgeColorsSym; infer_instance

/-- Number of half-edges not yet marked EXTERNAL: the termination measure of
the flood fill. -/
def uncolored (d : Diagram) (s : CState) : Nat :=
  ((Finset.range d.numEdges).filter (fun e => s.getEdge e ≠ EXTERNAL_COLOR)).card

/-- A concrete two half-edge diagram: the single fully unbounded bisector
pair produced by two point sites. -/
def exampleDiagram : Diagram :=
  { twin := [1, 0], vertex1 := [none, none], isPrimary := [true, true],
    rotNext := [0, 1], incidentEdge := [] }

theorem getEdge_setEdge (s : CState) (e c f : Nat) :
    (s.setEdge e c).getEdge f =
      if e = f ∧ e < s.ecolor.length then c else s.getEdge f := by
  simp only [CState.getEdge, CState.setEdge, List.getD_eq_getElem?_getD, List.getElem?_set]
  by_cases h1 : e = f
  · subst h1
    by_cases h2 : e < s.ecolor.length
    · simp [h2]
    · simp [h2, List.getElem?_eq_none (Nat.le_of_not_lt h2)]
  · simp [h1]

theorem getEdge_setVert (s : CState) (v c f : Nat) :
    (s.setVert v c).getEdge f = s.getEdge f := rfl

theorem ecolor_length_setEdge (s : CState) (e c : Nat) :
    (s.setEdge e c).ecolor.length = s.ecolor.length := List.length_set ..

theorem getEdge_initState (d : Diagram) (x : Nat) : (initState d).getEdge x = 0 := by
  simp only [initState, CState.getEdge, List.getD_eq_getElem?_getD, List.getElem?_replicate]
  by_cases h : x < d.numEdges <;> simp [h]

/-- The flood fill only raises color tags to EXTERNAL and never changes the
lengths of the color tables. -/
def Evolves (s t : CState) : Prop :=
  t.ecolor.length = s.ecolor.length ∧ t.vcolor.length = s.vcolor.length ∧
  ∀ e, t.getEdge e = s.getEdge e ∨ t.getEdge e = EXTERNAL_COLOR

theorem evolves_refl (s : CState) : Evolves s s :=
  ⟨rfl, rfl, fun _ => Or.inl rfl⟩

theorem evolves_trans {s t u : CState} (h1 : Evolves s t) (h2 : Evolves t u) :
    Evolves s u := by
  refine ⟨h2.1.trans h1.1, h2.2.1.trans h1.2.1, fun e => ?_⟩
  rcases h2.2.2 e with h | h
  · rw [h]; exact h1.2.2 e
  · exact Or.inr h

theorem evolves_setEdge (s : CState) (e : Nat) :
    Evolves s (s.setEdge e EXTERNAL_COLOR) := by
  refine ⟨ecolor_length_setEdge .., rfl, fun f => ?_⟩
  rw [getEdge_setEdge]
  split
  · exact Or.inr rfl
  · exact Or.inl rfl

theorem evolves_setVert (s : CState) (v c : Nat) : Evolves s (s.setVert v c) :=
  ⟨rfl, List.length_set .., fun _ => Or.inl rfl⟩

theorem evolves_color_exterior (d : Diagram) :
    ∀ fuel : Nat,
      (∀ e s, Evolves s (color_exterior d fuel e s)) ∧
      (∀ st cur s, Evolves s (rot_ring_loop d fuel st cur s)) := by
  intro fuel
  induction fuel with
  | zero => exact ⟨fun _ s => evolves_refl s, fun _ _ s => evolves_refl s⟩
  | succ n ih =>
    constructor
    · intro e s
      simp only [color_exterior]
      by_cases hc : s.getEdge e = EXTERNAL_COLOR
      · simp only [hc, if_true]; exact evolves_refl s
      · simp only [hc, if_false]
        have h1 : Evolves s ((s.setEdge e EXTERNAL_COLOR).setEdge (d.twinOf e) EXTERNAL_COLOR) :=
          evolves_trans (evolves_setEdge s e) (evolves_setEdge _ _)
        cases hv : d.vertex1Of e with
        | none => exact h1
        | some v =>
          by_cases hp : d.isPrimaryOf e
          · simp only [hp, if_true]
            refine evolves_trans (evolves_trans h1 (evolves_setVert _ v EXTERNAL_COLOR)) ?_
            exact ih.2 _ _ _
          · simp only [hp, if_false]
            exact h1
    · intro st cur s
      simp only [rot_ring_loop]
      by_cases hn : d.rotNextOf cur = st
      · simp only [hn, if_true]
        exact ih.1 cur s
      · simp only [hn, if_false]
        exact evolves_trans (ih.1 cur s) (ih.2 st _ _)

theorem evolves_ce (d : Diagram) (fuel e : Nat) (s : CState) :
    Evolves s (color_exterior d fuel e s) :=
  (evolves_color_exterior d fuel).1 e s

theorem ecolor_length_ce (d : Diagram) (fuel e : Nat) (s : CState) :
    (color_exterior d fuel e s).ecolor.length = s.ecolor.length :=
  (evolves_ce d fuel e s).1

theorem getEdge_mono_ce (d : Diagram) (fuel e x : Nat) (s : CState)
    (h : s.getEdge x = EXTERNAL_COLOR) :
    (color_exterior d fuel e s).getEdge x = EXTERNAL_COLOR := by
  rcases (evolves_ce d fuel e s).2.2 x with h2 | h2
  · rw [h2, h]
  · exact h2

theorem getEdge_mono_rot (d : Diagram) (fuel st cur x : Nat) (s : CState)
    (h : s.getEdge x = EXTERNAL_COLOR) :
    (rot_ring_loop d fuel st cur s).getEdge x = EXTERNAL_COLOR := by
  rcases ((evolves_color_exterior d fuel).2 st cur s).2.2 x with h2 | h2
  · rw [h2, h]
  · exact h2

theorem color_exterior_of_colored (d : Diagram) (fuel e : Nat) (s : CState)
    (h : s.getEdge e = EXTERNAL_COLOR) :
    color_exterior d (fuel + 1) e s = s := by
  simp [color_exterior, h]

theorem getEdge_after_ce (d : Diagram) (fuel e : Nat) (s : CState)
    (he : e < s.ecolor.length) :
    (color_exterior d (fuel + 1) e s).getEdge e = EXTERNAL_COLOR := by
  simp only [color_exterior]
  by_cases hc : s.getEdge e = EXTERNAL_COLOR
  · simp [hc]
  · simp only [hc, if_false]
    have h1 : ((s.setEdge e EXTERNAL_COLOR).setEdge (d.twinOf e) EXTERNAL_COLOR).getEdge e
        = EXTERNAL_COLOR := by
      rw [getEdge_setEdge]
      split
      · rfl
      · rw [getEdge_setEdge]
        simp [he]
    cases hv : d.vertex1Of e with
    | none => exact h1
    | some v =>
      by_cases hp : d.isPrimaryOf e
      · simp only [hp, if_true]
        exact getEdge_mono_rot _ _ _ _ _ _ (by rw [getEdge_setVert]; exact h1)
      · simp only [hp, if_false]
        exact h1

theorem ecolor_length_passStep (d : Diagram) (s : CState) (a : Nat) :
    (passStep d s a).ecolor.length = s.ecolor.length := by
  unfold passStep
  split
  · rfl
  · exact ecolor_length_ce ..

theorem ecolor_length_foldPass (d : Diagram) :
    ∀ (l : List Nat) (s : CState),
      (l.foldl (passStep d) s).ecolor.length = s.ecolor.length := by
  intro l
  induction l with
  | nil => intro s; rfl
  | cons a t ih =>
    intro s
    rw [List.foldl_cons, ih]
    exact ecolor_length_passStep ..

theorem getEdge_mono_foldPass (d : Diagram) :
    ∀ (l : List Nat) (s : CState) (x : Nat), s.getEdge x = EXTERNAL_COLOR →
      (l.foldl (passStep d) s).getEdge x = EXTERNAL_COLOR := by
  intro l
  induction l with
  | nil => intro s x h; exact h
  | cons a t ih =>
    intro s x h
    rw [List.foldl_cons]
    apply ih
    unfold passStep
    split
    · exact h
    · exact getEdge_mono_ce _ _ _ _ _ h

theorem foldPass_colors (d : Diagram) :
    ∀ (l : List Nat) (s : CState) (x : Nat), x ∈ l → x < s.ecolor.length →
      d.isFiniteEdge x = false →
      (l.foldl (passStep d) s).getEdge x = EXTERNAL_COLOR := by
  intro l
  induction l with
  | nil => intro s x hx; exact absurd hx (List.not_mem_nil x)
  | cons a t ih =>
    intro s x hx hlt hnf
    rw [List.foldl_cons]
    rcases List.mem_cons.mp hx with rfl | hxt
    · apply getEdge_mono_foldPass
      unfold passStep
      rw [hnf]
      simp only [Bool.false_eq_true, if_false]
      exact getEdge_after_ce d (d.numEdges * (d.numEdges + 1)) x s hlt
    · apply ih _ x hxt _ hnf
      rw [ecolor_length_passStep]
      exact hlt

theorem foldPass_noop (d : Diagram) :
    ∀ (l : List Nat) (s : CState),
      (∀ x ∈ l, d.isFiniteEdge x = false → s.getEdge x = EXTERNAL_COLOR) →
      l.foldl (passStep d) s = s := by
  intro l
  induction l with
  | nil => intro s _; rfl
  | cons a t ih =>
    intro s h
    rw [List.foldl_cons]
    have hstep : passStep d s a = s := by
      unfold passStep
      split
      · rfl
      · rename_i hfin
        apply color_exterior_of_colored d (d.numEdges * (d.numEdges + 1)) a s
        exact h a (List.mem_cons_self a t) (by revert hfin; cases d.isFiniteEdge a <;> simp)
    rw [hstep]
    exact ih s fun x hx => h x (List.mem_cons_of_mem a hx)

theorem setEdge_out_of_range (s : CState) (e c : Nat) (h : s.ecolor.length ≤ e) :
    s.setEdge e c = s := by
  unfold CState.setEdge
  rw [List.set_eq_of_length_le h]

theorem twinOf_out_of_range (d : Diagram) (e : Nat) (h : d.numEdges ≤ e) :
    d.twinOf e = e := by
  unfold Diagram.twinOf
  simp [List.getD_eq_getElem?_getD, List.getElem?_eq_none h]

theorem vertex1Of_out_of_range (d : Diagram) (e : Nat)
    (hv1 : d.vertex1.length = d.numEdges) (h : d.numEdges ≤ e) :
    d.vertex1Of e = none := by
  unfold Diagram.vertex1Of
  rw [List.getD_eq_getElem?_getD, List.getElem?_eq_none (by rw [hv1]; exact h)]
  rfl

theorem rotNextOf_out_of_range (d : Diagram) (e : Nat)
    (hr : d.rotNext.length = d.numEdges) (h : d.numEdges ≤ e) :
    d.rotNextOf e = e := by
  unfold Diagram.rotNextOf
  rw [List.getD_eq_getElem?_getD, List.getElem?_eq_none (by rw [hr]; exact h)]
  rfl

theorem double_set_out_of_range (d : Diagram) (s : CState) (e : Nat)
    (hlen : s.ecolor.length = d.numEdges) (h : d.numEdges ≤ e) :
    (s.setEdge e EXTERNAL_COLOR).setEdge (d.twinOf e) EXTERNAL_COLOR = s := by
  rw [twinOf_out_of_range d e h, setEdge_out_of_range s e _ (by rw [hlen]; exact h),
    setEdge_out_of_range s e _ (by rw [hlen]; exact h)]

theorem ce_out_of_range (d : Diagram) (hv1 : d.vertex1.length = d.numEdges)
    (fuel e : Nat) (s : CState) (hlen : s.ecolor.length = d.numEdges)
    (h : d.numEdges ≤ e) :
    color_exterior d (fuel + 1) e s = s := by
  simp only [color_exterior]
  by_cases hc : s.getEdge e = EXTERNAL_COLOR
  · simp [hc]
  · simp only [hc, if_false]
    rw [vertex1Of_out_of_range d e hv1 h]
    exact double_set_out_of_range d s e hlen h

theorem sym_set_pair (d : Diagram) (hwf : d.WF) (hinv : d.TwinInvol) (s : CState)
    (hlen : s.ecolor.length = d.numEdges) (e : Nat) (hsym : d.EdgeColorsSym s) :
    d.EdgeColorsSym ((s.setEdge e EXTERNAL_COLOR).setEdge (d.twinOf e) EXTERNAL_COLOR) := by
  by_cases heE : e < d.numEdges
  · intro f hf
    have htwe : d.twinOf e < d.numEdges := hwf.2.2.2 e heE
    have hinv_e : d.twinOf (d.twinOf e) = e := hinv e heE
    have hinv_f : d.twinOf (d.twinOf f) = f := hinv f hf
    rw [getEdge_setEdge, getEdge_setEdge, getEdge_setEdge, getEdge_setEdge]
    simp only [ecolor_length_setEdge, hlen, htwe, heE, and_true]
    by_cases hfe : f = e
    · subst hfe
      by_cases h : d.twinOf f = f <;> simp [h]
    · by_cases hftw : f = d.twinOf e
      · subst hftw
        simp only [if_pos rfl]
        rw [hinv_e]
        by_cases h : d.twinOf e = e <;> simp [h]
      · have h1 : ¬ d.twinOf e = f := fun h => hftw h.symm
        have h2 : ¬ e = f := fun h => hfe h.symm
        have h3 : ¬ d.twinOf e = d.twinOf f := by
          intro h
          exact hfe (by rw [← hinv_f, ← h, hinv_e])
        have h4 : ¬ e = d.twinOf f := by
          intro h
          exact hftw (by rw [← hinv_f, ← h])
        simp only [h1, h2, h3, h4, if_false]
        exact hsym f hf
  · rw [double_set_out_of_range d s e hlen (Nat.le_of_not_lt heE)]
    exact hsym

theorem sym_color_exterior (d : Diagram) (hwf : d.WF) (hinv : d.TwinInvol) :
    ∀ fuel : Nat,
      (∀ e s, s.ecolor.length = d.numEdges → d.EdgeColorsSym s →
        d.EdgeColorsSym (color_exterior d fuel e s)) ∧
      (∀ st cur s, s.ecolor.length = d.numEdges → d.EdgeColorsSym s →
        d.EdgeColorsSym (rot_ring_loop d fuel st cur s)) := by
  intro fuel
  induction fuel with
  | zero => exact ⟨fun _ _ _ h => h, fun _ _ _ _ h => h⟩
  | succ n ih =>
    constructor
    · intro e s hlen hsym
      simp only [color_exterior]
      by_cases hc : s.getEdge e = EXTERNAL_COLOR
      · simp only [hc, if_true]; exact hsym
      · simp only [hc, if_false]
        have hsym1 := sym_set_pair d hwf hinv s hlen e hsym
        have hlen1 : ((s.setEdge e EXTERNAL_COLOR).setEdge
            (d.twinOf e) EXTERNAL_COLOR).ecolor.length = d.numEdges := by
          rw [ecolor_length_setEdge, ecolor_length_setEdge, hlen]
        cases hv : d.vertex1Of e with
        | none => exact hsym1
        | some v =>
          by_cases hp : d.isPrimaryOf e
          · simp only [hp, if_true]
            exact ih.2 _ _ _ hlen1 hsym1
          · simp only [hp, if_false]
            exact hsym1
    · intro st cur s hlen hsym
      simp only [rot_ring_loop]
      have hsym1 := ih.1 cur s hlen hsym
      have hlen1 : (color_exterior d n cur s).ecolor.length = d.numEdges := by
        rw [ecolor_length_ce, hlen]
      by_cases hn : d.rotNextOf cur = st
      · simp only [hn, if_true]; exact hsym1
      · simp only [hn, if_false]
        exact ih.2 _ _ _ hlen1 hsym1

theorem sym_foldPass (d : Diagram) (hwf : d.WF) (hinv : d.TwinInvol) :
    ∀ (l : List Nat) (s : CState), s.ecolor.length = d.numEdges →
      d.EdgeColorsSym s → d.EdgeColorsSym (l.foldl (passStep d) s) := by
  intro l
  induction l with
  | nil => intro s _ h; exact h
  | cons a t ih =>
    intro s hlen hsym
    rw [List.foldl_cons]
    refine ih _ (by rw [ecolor_length_passStep, hlen]) ?_
    unfold passStep
    split
    · exact hsym
    · exact (sym_color_exterior d hwf hinv (fuelBound d)).1 a s hlen hsym

theorem uncolored_of_evolves (d : Diagram) {s t : CState} (h : Evolves s t) :
    uncolored d t ≤ uncolored d s := by
  apply Finset.card_le_card
  intro x hx
  simp only [Finset.mem_filter, Finset.mem_range] at hx ⊢
  refine ⟨hx.1, ?_⟩
  rcases h.2.2 x with h2 | h2
  · rw [← h2]; exact hx.2
  · exact absurd h2 hx.2

theorem uncolored_ce_le (d : Diagram) (fuel e : Nat) (s : CState) :
    uncolored d (color_exterior d fuel e s) ≤ uncolored d s :=
  uncolored_of_evolves d (evolves_ce ..)

theorem uncolored_setVert (d : Diagram) (s : CState) (v c : Nat) :
    uncolored d (s.setVert v c) = uncolored d s := rfl

theorem uncolored_double_set_lt (d : Diagram) (s : CState) (e : Nat)
    (heE : e < d.numEdges) (hlen : s.ecolor.length = d.numEdges)
    (hc : s.getEdge e ≠ EXTERNAL_COLOR) :
    uncolored d ((s.setEdge e EXTERNAL_COLOR).setEdge (d.twinOf e) EXTERNAL_COLOR) <
      uncolored d s := by
  have hmem : e ∈ (Finset.range d.numEdges).filter
      (fun x => s.getEdge x ≠ EXTERNAL_COLOR) := by
    simp only [Finset.mem_filter, Finset.mem_range]
    exact ⟨heE, hc⟩
  have hsub : (Finset.range d.numEdges).filter
      (fun x => ((s.setEdge e EXTERNAL_COLOR).setEdge
        (d.twinOf e) EXTERNAL_COLOR).getEdge x ≠ EXTERNAL_COLOR) ⊆
      ((Finset.range d.numEdges).filter
        (fun x => s.getEdge x ≠ EXTERNAL_COLOR)).erase e := by
    intro x hx
    simp only [Finset.mem_filter, Finset.mem_range] at hx
    rw [getEdge_setEdge, getEdge_setEdge] at hx
    rw [Finset.mem_erase, Finset.mem_filter, Finset.mem_range]
    rcases hx with ⟨hxE, hval⟩
    by_cases hxe : x = e
    · exfalso
      subst hxe
      apply hval
      split
      · rfl
      · rw [if_pos ⟨rfl, by rw [hlen]; exact heE⟩]
    · refine ⟨hxe, hxE, ?_⟩
      intro hsx
      apply hval
      split
      · rfl
      · rw [if_neg (fun h => hxe h.1.symm)]
        exact hsx
  calc uncolored d ((s.setEdge e EXTERNAL_COLOR).setEdge (d.twinOf e) EXTERNAL_COLOR)
      ≤ (((Finset.range d.numEdges).filter
          (fun x => s.getEdge x ≠ EXTERNAL_COLOR)).erase e).card := Finset.card_le_card hsub
    _ = uncolored d s - 1 := Finset.card_erase_of_mem hmem
    _ < uncolored d s := Nat.sub_lt (Finset.card_pos.mpr ⟨e, hmem⟩) Nat.one_pos

/-- Fuel that suffices for any call of color_exterior from a state with at
most u uncolored edges. -/
def NBound (d : Diagram) (u : Nat) : Nat := u * (d.numEdges + 1) + 1

theorem NBound_succ (d : Diagram) (u : Nat) :
    NBound d (u + 1) = NBound d u + d.numEdges + 1 := by
  unfold NBound; ring

theorem NBound_pos (d : Diagram) (u : Nat) : 1 ≤ NBound d u := by
  unfold NBound; omega

theorem rot_stable_of_ce_stable (d : Diagram) (u : Nat)
    (hA : ∀ s e f₁ f₂, s.ecolor.length = d.numEdges → uncolored d s ≤ u →
      NBound d u ≤ f₁ → NBound d u ≤ f₂ →
      color_exterior d f₁ e s = color_exterior d f₂ e s) :
    ∀ m st cur s f₁ f₂, s.ecolor.length = d.numEdges → uncolored d s ≤ u →
      1 ≤ m → (d.rotNextOf)^[m] cur = st →
      m + NBound d u ≤ f₁ → m + NBound d u ≤ f₂ →
      rot_ring_loop d f₁ st cur s = rot_ring_loop d f₂ st cur s := by
  intro m
  induction m with
  | zero =>
    intro st cur s f₁ f₂ _ _ hm
    exact absurd hm (by omega)
  | succ k ih =>
    intro st cur s f₁ f₂ hlen hu _ hiter hf₁ hf₂
    have hN := NBound_pos d u
    obtain ⟨a, rfl⟩ : ∃ a, f₁ = a + 1 := ⟨f₁ - 1, by omega⟩
    obtain ⟨b, rfl⟩ : ∃ b, f₂ = b + 1 := ⟨f₂ - 1, by omega⟩
    simp only [rot_ring_loop]
    have hce : color_exterior d a cur s = color_exterior d b cur s := by
      have h1 := hA s cur a (NBound d u) hlen hu (by omega) (le_refl _)
      have h2 := hA s cur b (NBound d u) hlen hu (by omega) (le_refl _)
      rw [h1, h2]
    rw [hce]
    by_cases hn : d.rotNextOf cur = st
    · simp [hn]
    · simp only [hn, if_false]
      have hk : 1 ≤ k := by
        rcases Nat.eq_zero_or_pos k with rfl | h
        · rw [Function.iterate_one] at hiter
          exact absurd hiter hn
        · exact h
      have hiter' : (d.rotNextOf)^[k] (d.rotNextOf cur) = st := by
        rw [← Function.iterate_succ_apply]
        exact hiter
      have hlen1 : (color_exterior d b cur s).ecolor.length = d.numEdges := by
        rw [ecolor_length_ce]; exact hlen
      have hu1 : uncolored d (color_exterior d b cur s) ≤ u :=
        le_trans (uncolored_ce_le ..) hu
      exact ih st _ _ a b hlen1 hu1 hk hiter' (by omega) (by omega)

theorem ce_stable (d : Diagram) (hwf : d.WF) (hring : d.RingClosed) :
    ∀ u s e f₁ f₂, s.ecolor.length = d.numEdges → uncolored d s ≤ u →
      NBound d u ≤ f₁ → NBound d u ≤ f₂ →
      color_exterior d f₁ e s = color_exterior d f₂ e s := by
  intro u
  induction u with
  | zero =>
    intro s e f₁ f₂ hlen hu hf₁ hf₂
    have hN := NBound_pos d 0
    obtain ⟨a, rfl⟩ : ∃ a, f₁ = a + 1 := ⟨f₁ - 1, by omega⟩
    obtain ⟨b, rfl⟩ : ∃ b, f₂ = b + 1 := ⟨f₂ - 1, by omega⟩
    by_cases hc : s.getEdge e = EXTERNAL_COLOR
    · rw [color_exterior_of_colored d a e s hc, color_exterior_of_colored d b e s hc]
    · have heE : d.numEdges ≤ e := by
        by_contra hlt
        push_neg at hlt
        have hmem : e ∈ (Finset.range d.numEdges).filter
            (fun x => s.getEdge x ≠ EXTERNAL_COLOR) := by
          simp only [Finset.mem_filter, Finset.mem_range]
          exact ⟨hlt, hc⟩
        have := Finset.card_pos.mpr ⟨e, hmem⟩
        have : 0 < uncolored d s := this
        omega
      rw [ce_out_of_range d hwf.1 a e s hlen heE, ce_out_of_range d hwf.1 b e s hlen heE]
  | succ u ih =>
    intro s e f₁ f₂ hlen hu hf₁ hf₂
    have hN := NBound_pos d (u + 1)
    obtain ⟨a, rfl⟩ : ∃ a, f₁ = a + 1 := ⟨f₁ - 1, by omega⟩
    obtain ⟨b, rfl⟩ : ∃ b, f₂ = b + 1 := ⟨f₂ - 1, by omega⟩
    by_cases hc : s.getEdge e = EXTERNAL_COLOR
    · rw [color_exterior_of_colored d a e s hc, color_exterior_of_colored d b e s hc]
    · by_cases heE : e < d.numEdges
      · simp only [color_exterior, hc, if_false]
        cases hv : d.vertex1Of e with
        | none => rfl
        | some v =>
          by_cases hp : d.isPrimaryOf e
          · simp only [hp, if_true]
            have hlen1 : (((s.setEdge e EXTERNAL_COLOR).setEdge
                (d.twinOf e) EXTERNAL_COLOR).setVert v EXTERNAL_COLOR).ecolor.length
                = d.numEdges := by
              show ((s.setEdge e EXTERNAL_COLOR).setEdge
                (d.twinOf e) EXTERNAL_COLOR).ecolor.length = d.numEdges
              rw [ecolor_length_setEdge, ecolor_length_setEdge, hlen]
            have hu1 : uncolored d (((s.setEdge e EXTERNAL_COLOR).setEdge
                (d.twinOf e) EXTERNAL_COLOR).setVert v EXTERNAL_COLOR) ≤ u := by
              rw [uncolored_setVert]
              have := uncolored_double_set_lt d s e heE hlen hc
              omega
            have hEpos : 1 ≤ d.numEdges := by omega
            obtain ⟨m, hm1, hmE, hiter⟩ : ∃ m, 1 ≤ m ∧ m ≤ d.numEdges ∧
                (d.rotNextOf)^[m] (d.incidentEdgeOf v) = d.incidentEdgeOf v := by
              rcases Nat.lt_or_ge (d.incidentEdgeOf v) d.numEdges with hlt | hge
              · obtain ⟨m, hmlt, hit⟩ := hring (d.incidentEdgeOf v) hlt
                exact ⟨m + 1, by omega, by omega, hit⟩
              · refine ⟨1, le_refl 1, hEpos, ?_⟩
                rw [Function.iterate_one, rotNextOf_out_of_range d _ hwf.2.2.1 hge]
            have hNB := NBound_succ d u
            exact rot_stable_of_ce_stable d u ih m (d.incidentEdgeOf v)
              (d.incidentEdgeOf v) _ a b hlen1 hu1 hm1 hiter (by omega) (by omega)
          · simp [hp]
      · have heE' : d.numEdges ≤ e := Nat.le_of_not_lt heE
        rw [ce_out_of_range d hwf.1 a e s hlen heE', ce_out_of_range d hwf.1 b e s hlen heE']

theorem uncolored_le_numEdges (d : Diagram) (s : CState) :
    uncolored d s ≤ d.numEdges := by
  calc uncolored d s ≤ (Finset.range d.numEdges).card := Finset.card_filter_le _ _
    _ = d.numEdges := Finset.card_range _

theorem fuelBound_eq_NBound (d : Diagram) : fuelBound d = NBound d d.numEdges := rfl

/-- Boost deconvolve on points: translate back by the stored shift. -/
def deconvolve (p shift : Point) : Point := ⟨p.x - shift.x, p.y - shift.y⟩

/-- Boost deconvolve on rectangles. -/
def deconvolveRect (r : Rect) (shift : Point) : Rect :=
  ⟨r.xl - shift.x, r.yl - shift.y, r.xh - shift.x, r.yh - shift.y⟩

/-- The projection matrix entries written by update_view_port (all remaining
entries of the 4 by 4 array stay zero). -/
structure ProjMatrix where
  m0 : ℚ
  m5 : ℚ
  m10 : ℚ
  m12 : ℚ
  m13 : ℚ
  m14 : ℚ
  m15 : ℚ
deriving DecidableEq

/-- The diagram with no cells, vertices or edges, modelling vd_ after
vd_.clear(). -/
def emptyDiagram : Diagram := ⟨[], [], [], [], []⟩

/-- The GLWidget fields touched by build, clear and update_view_port.  The
field brect_ready models brect_initialized_, and vdColors carries the mutable
color tags of the externally owned diagram vd_. -/
structure WidgetState where
  shift : Point
  point_data : List Point
  segment_data : List Segment
  brect : Rect
  vd : Diagram
  vdColors : CState
  brect_ready : Bool
  gl_points : List Point
  gl_segments : List Point
  gl_vertices : List Point
  gl_edges : List (List Point)
  projection : ProjMatrix

/-- GLWidget.clear: reset the initialization flag, drop the site lists, the
diagram with its color tags, and every cached render buffer.  Neither brect_
nor shift_ nor the projection matrix is touched. -/
def clear (s : WidgetState) : WidgetState :=
  { s with brect_ready := false, point_data := [], segment_data := [],
           vd := emptyDiagram, vdColors := ⟨[], []⟩,
           gl_points := [], gl_segments := [], gl_vertices := [], gl_edges := [] }

/-- A parsed input file: the point sites followed by the segment sites. -/
structure InputData where
  points : List Point
  segments : List Segment

/-- GLWidget.read_data over an already-parsed site list: push every site
coordinate through update_brect and append the site to its list. -/
def read_data (inp : InputData) (s : WidgetState) : WidgetState :=
  let s1 := inp.points.foldl (fun t p =>
    let br := update_brect (t.brect_ready, t.brect) p
    { t with brect_ready := br.1, brect := br.2,
             point_data := t.point_data ++ [p] }) s
  inp.segments.foldl (fun t sg =>
    let br1 := update_brect (t.brect_ready, t.brect) sg.low
    let br2 := update_brect br1 sg.high
    { t with brect_ready := br2.1, brect := br2.2,
             segment_data := t.segment_data ++ [sg] }) s1

/-- GLWidget.update_view_port: derive the orthographic projection entries
from the shifted view rectangle. -/
def update_view_port (s : WidgetState) : WidgetState :=
  let view_rect := deconvolveRect s.brect s.shift
  let width := view_rect.xh - view_rect.xl
  let height := view_rect.yh - view_rect.yl
  { s with projection :=
      ⟨2 / width, 2 / height, -1,
       -(view_rect.xl + view_rect.xh) / width,
       -(view_rect.yl + view_rect.yh) / height, 0, 1⟩ }

/-- GLWidget.build: clear everything, ingest the input, return early when no
site was ever observed, otherwise finalize the bounding rectangle, obtain the
diagram from the external builder, run the exterior coloring pass, and update
the view port. -/
def build (builder : List Point → List Segment → Diagram) (inp : InputData)
    (s0 : WidgetState) : WidgetState :=
  let s := read_data inp (clear s0)
  if s.brect_ready then
    let sb := construct_brect s.brect
    let s1 := { s with shift := sb.1, brect := sb.2 }
    let vd := builder s1.point_data s1.segment_data
    let s2 := { s1 with vd := vd, vdColors := color_exterior_pass vd (initState vd) }
    update_view_port s2
  else s

/-- A vertex as uploaded to a GL buffer, modelling the GLPoint struct. -/
structure GLPoint where
  x : ℚ
  y : ℚ
deriving DecidableEq

/-- The center points handed to point_vbo by prepare_points: every input
point and every segment endpoint, each recentered by shift_ first. -/
def prepare_points (shift : Point) (pd : List Point) (sd : List Segment) :
    List Point :=
  pd.map (fun point => deconvolve point shift) ++
  sd.flatMap (fun sg => [deconvolve sg.low shift, deconvolve sg.high shift])

/-- The vertex coordinates uploaded by prepare_segments: both endpoints of
every input segment, recentered by shift_ first. -/
def prepare_segments (shift : Point) (sd : List Segment) : List GLPoint :=
  sd.flatMap (fun sg =>
    [⟨(deconvolve sg.low shift).x, (deconvolve sg.low shift).y⟩,
     ⟨(deconvolve sg.high shift).x, (deconvolve sg.high shift).y⟩])

/-- The center points handed to point_vbo by prepare_vertices (with the
internal-only filter off), each recentered by shift_ first. -/
def prepare_vertices (shift : Point) (vs : List Point) : List Point :=
  vs.map (fun vertex => deconvolve vertex shift)

/-- The vertex coordinates uploaded for one edge by prepare_edges: for every
sample the recentered vertex is computed, but the raw sample coordinates are
what gets pushed, exactly as in the source loop. -/
def prepare_edge_samples (shift : Point) (samples : List Point) : List GLPoint :=
  samples.map (fun sample =>
    let vertex := deconvolve sample shift
    ⟨sample.x, sample.y⟩)

theorem insideRect_encompass (r : Rect) (p q : Point) (h : insideRect r q) :
    insideRect (encompass r p) q := by
  obtain ⟨h1, h2, h3, h4⟩ := h
  exact ⟨le_trans (min_le_left ..) h1, le_trans h2 (le_max_left ..),
    le_trans (min_le_left ..) h3, le_trans h4 (le_max_left ..)⟩

theorem insideRect_encompass_self (r : Rect) (p : Point) :
    insideRect (encompass r p) p :=
  ⟨min_le_right .., le_max_right .., min_le_right .., le_max_right ..⟩

theorem update_brect_self (b : Bool) (r : Rect) (p : Point) :
    insideRect (update_brect (b, r) p).2 p := by
  cases b
  · exact ⟨le_refl _, le_refl _, le_refl _, le_refl _⟩
  · exact insideRect_encompass_self r p

theorem update_brect_pair (b : Bool) (r : Rect) (p : Point) :
    update_brect (b, r) p = (true, (update_brect (b, r) p).2) := by
  cases b <;> rfl

theorem foldl_update_preserves :
    ∀ (l : List Point) (r : Rect) (q : Point), insideRect r q →
      insideRect (l.foldl update_brect (true, r)).2 q := by
  intro l
  induction l with
  | nil => intro r q h; exact h
  | cons a t ih =>
    intro r q h
    rw [List.foldl_cons]
    exact ih (encompass r a) q (insideRect_encompass r a q h)

theorem foldl_update_mem :
    ∀ (l : List Point) (b : Bool) (r : Rect) (q : Point), q ∈ l →
      insideRect (l.foldl update_brect (b, r)).2 q := by
  intro l
  induction l with
  | nil => intro b r q h; exact absurd h (List.not_mem_nil q)
  | cons a t ih =>
    intro b r q hq
    rw [List.foldl_cons]
    rcases List.mem_cons.mp hq with rfl | hqt
    · rw [update_brect_pair]
      exact foldl_update_preserves t _ q (update_brect_self b r q)
    · rw [update_brect_pair]
      exact ih true _ q hqt

theorem foldBrect_mem (pts : List Point) (q : Point) (hq : q ∈ pts) :
    insideRect (foldBrect pts).2 q :=
  foldl_update_mem pts false ⟨0, 0, 0, 0⟩ q hq

theorem construct_brect_strict (r : Rect) (q : Point) (hin : insideRect r q)
    (hs : 0 < max (r.xh - r.xl) (r.yh - r.yl)) :
    strictlyInsideRect (construct_brect r).2 q := by
  obtain ⟨h1, h2, h3, h4⟩ := hin
  have hw : r.xh - r.xl ≤ max (r.xh - r.xl) (r.yh - r.yl) := le_max_left ..
  have hh : r.yh - r.yl ≤ max (r.xh - r.xl) (r.yh - r.yl) := le_max_right ..
  unfold construct_brect bloat strictlyInsideRect
  simp only
  refine ⟨by linarith, by linarith, by linarith, by linarith⟩

theorem construct_brect_square (r : Rect) :
    (construct_brect r).2.xh - (construct_brect r).2.xl =
      (construct_brect r).2.yh - (construct_brect r).2.yl := by
  unfold construct_brect bloat
  simp only
  ring

theorem construct_brect_side (r : Rect) :
    (construct_brect r).2.xh - (construct_brect r).2.xl =
      (12 / 5) * max (r.xh - r.xl) (r.yh - r.yl) := by
  unfold construct_brect bloat
  simp only
  ring

theorem far_point_outside (r : Rect) (o dir : Point) (SIDE : ℚ)
    (hin : insideRect r o) (hw : r.xh - r.xl < SIDE) (hh : r.yh - r.yl < SIDE)
    (hd : ¬(dir.x = 0 ∧ dir.y = 0)) (sgn : ℚ) (hsgn : sgn = 1 ∨ sgn = -1) :
    strictlyOutsideRect r
      ⟨o.x + sgn * (dir.x * (SIDE / max |dir.x| |dir.y|)),
       o.y + sgn * (dir.y * (SIDE / max |dir.x| |dir.y|))⟩ := by
  obtain ⟨h1, h2, h3, h4⟩ := hin
  unfold strictlyOutsideRect
  rcases le_total |dir.x| |dir.y| with hxy | hxy
  · have hM : max |dir.x| |dir.y| = |dir.y| := max_eq_right hxy
    have hy : dir.y ≠ 0 := by
      intro h0
      apply hd
      rw [h0, abs_zero] at hxy
      exact ⟨abs_eq_zero.mp (le_antisymm hxy (abs_nonneg _)), h0⟩
    have hval : dir.y * (SIDE / max |dir.x| |dir.y|) = SIDE ∨
        dir.y * (SIDE / max |dir.x| |dir.y|) = -SIDE := by
      rw [hM]
      rcases lt_or_gt_of_ne hy with hneg | hpos
      · right
        rw [abs_of_neg hneg]
        field_simp
        rw [div_neg, mul_comm, mul_div_cancel_right₀ _ hy]
      · left
        rw [abs_of_pos hpos, mul_comm, div_mul_cancel₀ _ hy]
    have htot : sgn * (dir.y * (SIDE / max |dir.x| |dir.y|)) = SIDE ∨
        sgn * (dir.y * (SIDE / max |dir.x| |dir.y|)) = -SIDE := by
      rcases hsgn with rfl | rfl <;> rcases hval with h | h <;> rw [h]
      · left; ring
      · right; ring
      · right; ring
      · left; ring
    rcases htot with h | h
    · refine Or.inr (Or.inr (Or.inr ?_))
      show r.yh < o.y + sgn * (dir.y * (SIDE / max |dir.x| |dir.y|))
      rw [h]
      linarith
    · refine Or.inr (Or.inr (Or.inl ?_))
      show o.y + sgn * (dir.y * (SIDE / max |dir.x| |dir.y|)) < r.yl
      rw [h]
      linarith
  · have hM : max |dir.x| |dir.y| = |dir.x| := max_eq_left hxy
    have hx : dir.x ≠ 0 := by
      intro h0
      apply hd
      rw [h0, abs_zero] at hxy
      exact ⟨h0, abs_eq_zero.mp (le_antisymm hxy (abs_nonneg _))⟩
    have hval : dir.x * (SIDE / max |dir.x| |dir.y|) = SIDE ∨
        dir.x * (SIDE / max |dir.x| |dir.y|) = -SIDE := by
      rw [hM]
      rcases lt_or_gt_of_ne hx with hneg | hpos
      · right
        rw [abs_of_neg hneg]
        field_simp
        rw [div_neg, mul_comm, mul_div_cancel_right₀ _ hx]
      · left
        rw [abs_of_pos hpos, mul_comm, div_mul_cancel₀ _ hx]
    have htot : sgn * (dir.x * (SIDE / max |dir.x| |dir.y|)) = SIDE ∨
        sgn * (dir.x * (SIDE / max |dir.x| |dir.y|)) = -SIDE := by
      rcases hsgn with rfl | rfl <;> rcases hval with h | h <;> rw [h]
      · left; ring
      · right; ring
      · right; ring
      · left; ring
    rcases htot with h | h
    · refine Or.inr (Or.inl ?_)
      show r.xh < o.x + sgn * (dir.x * (SIDE / max |dir.x| |dir.y|))
      rw [h]
      linarith
    · refine Or.inl ?_
      show o.x + sgn * (dir.x * (SIDE / max |dir.x| |dir.y|)) < r.xl
      rw [h]
      linarith

/-- The fully unbounded bisector half-edge between the two point sites of the
two-site scenario. -/
def exampleEdge : EdgeData :=
  ⟨⟨0, .singlePoint⟩, ⟨1, .singlePoint⟩, none, none⟩

/-- C1 counterexample: for the three point sites (0,0), (10,0) and (5,8) the
half-infinite bisector edge between the first two sites keeps its present
endpoint, the diagram vertex (5, 39/16) (the circumcenter of the three
sites); the clipper emits that endpoint unchanged and it lies strictly inside
the pre-inflation bounding box [0,10] x [0,8], so not both emitted points are
strictly outside that box. -/
theorem clip_infinite_edge_vertex_inside_cex :
    (foldBrect [⟨0, 0⟩, ⟨10, 0⟩, ⟨5, 8⟩]).2 = ⟨0, 0, 10, 8⟩ ∧
    clip_infinite_edge [⟨0, 0⟩, ⟨10, 0⟩, ⟨5, 8⟩] []
        (construct_brect ⟨0, 0, 10, 8⟩).2
        ⟨⟨0, .singlePoint⟩, ⟨1, .singlePoint⟩, some ⟨5, 39 / 16⟩, none⟩ =
      [⟨5, 39 / 16⟩, ⟨5, 24⟩] ∧
    ¬ strictlyOutsideRect ⟨0, 0, 10, 8⟩ ⟨5, 39 / 16⟩ := by
  refine ⟨?_, ?_, ?_⟩
  · simp [foldBrect, update_brect, encompass]
    norm_num [min_def, max_def]
  · simp [clip_infinite_edge, edgeOrigin, edgeDirection, retrieve_point,
      Cell.contains_point, SourceCategory.isPointCategory, construct_brect, bloat]
    norm_num [max_def]
  · norm_num [strictlyOutsideRect]

/-- C1 (amended): for every unbounded edge whose ray origin lies inside the
pre-inflation bounding box, whose direction vector is nonzero and whose box
has positive extent, the clipper emits exactly two points, and every point
substituted for an absent endpoint lies strictly outside the pre-inflation
box; a present endpoint is emitted unchanged and may lie inside the box. -/
theorem clip_infinite_edge_substituted_outside (pd : List Point)
    (sd : List Segment) (preR : Rect) (edge : EdgeData)
    (hin : insideRect preR (edgeOrigin pd sd edge))
    (hd : ¬((edgeDirection pd sd edge).x = 0 ∧ (edgeDirection pd sd edge).y = 0))
    (hs : 0 < max (preR.xh - preR.xl) (preR.yh - preR.yl)) :
    (clip_infinite_edge pd sd (construct_brect preR).2 edge).length = 2 ∧
    (edge.vertex0 = none →
      strictlyOutsideRect preR
        ((clip_infinite_edge pd sd (construct_brect preR).2 edge).getD 0 ⟨0, 0⟩)) ∧
    (edge.vertex1 = none →
      strictlyOutsideRect preR
        ((clip_infinite_edge pd sd (construct_brect preR).2 edge).getD 1 ⟨0, 0⟩)) := by
  have hside := construct_brect_side preR
  have hwmax : preR.xh - preR.xl ≤ max (preR.xh - preR.xl) (preR.yh - preR.yl) :=
    le_max_left ..
  have hhmax : preR.yh - preR.yl ≤ max (preR.xh - preR.xl) (preR.yh - preR.yl) :=
    le_max_right ..
  have hw : preR.xh - preR.xl <
      (construct_brect preR).2.xh - (construct_brect preR).2.xl := by
    rw [hside]; linarith
  have hh : preR.yh - preR.yl <
      (construct_brect preR).2.xh - (construct_brect preR).2.xl := by
    rw [hside]; linarith
  refine ⟨?_, ?_, ?_⟩
  · cases h0 : edge.vertex0 <;> cases h1 : edge.vertex1 <;>
      simp [clip_infinite_edge, h0, h1]
  · intro hv0
    simp only [clip_infinite_edge, hv0]
    show strictlyOutsideRect preR
      ⟨(edgeOrigin pd sd edge).x - (edgeDirection pd sd edge).x *
          (((construct_brect preR).2.xh - (construct_brect preR).2.xl) /
            max |(edgeDirection pd sd edge).x| |(edgeDirection pd sd edge).y|),
       (edgeOrigin pd sd edge).y - (edgeDirection pd sd edge).y *
          (((construct_brect preR).2.xh - (construct_brect preR).2.xl) /
            max |(edgeDirection pd sd edge).x| |(edgeDirection pd sd edge).y|)⟩
    have hfar := far_point_outside preR (edgeOrigin pd sd edge)
      (edgeDirection pd sd edge)
      ((construct_brect preR).2.xh - (construct_brect preR).2.xl)
      hin hw hh hd (-1) (Or.inr rfl)
    have he1 : (edgeOrigin pd sd edge).x - (edgeDirection pd sd edge).x *
        (((construct_brect preR).2.xh - (construct_brect preR).2.xl) /
          max |(edgeDirection pd sd edge).x| |(edgeDirection pd sd edge).y|) =
        (edgeOrigin pd sd edge).x + (-1) * ((edgeDirection pd sd edge).x *
        (((construct_brect preR).2.xh - (construct_brect preR).2.xl) /
          max |(edgeDirection pd sd edge).x| |(edgeDirection pd sd edge).y|)) := by
      ring
    have he2 : (edgeOrigin pd sd edge).y - (edgeDirection pd sd edge).y *
        (((construct_brect preR).2.xh - (construct_brect preR).2.xl) /
          max |(edgeDirection pd sd edge).x| |(edgeDirection pd sd edge).y|) =
        (edgeOrigin pd sd edge).y + (-1) * ((edgeDirection pd sd edge).y *
        (((construct_brect preR).2.xh - (construct_brect preR).2.xl) /
          max |(edgeDirection pd sd edge).x| |(edgeDirection pd sd edge).y|)) := by
      ring
    rw [he1, he2]
    exact hfar
  · intro hv1
    simp only [clip_infinite_edge, hv1]
    show strictlyOutsideRect preR
      ⟨(edgeOrigin pd sd edge).x + (edgeDirection pd sd edge).x *
          (((construct_brect preR).2.xh - (construct_brect preR).2.xl) /
            max |(edgeDirection pd sd edge).x| |(edgeDirection pd sd edge).y|),
       (edgeOrigin pd sd edge).y + (edgeDirection pd sd edge).y *
          (((construct_brect preR).2.xh - (construct_brect preR).2.xl) /
            max |(edgeDirection pd sd edge).x| |(edgeDirection pd sd edge).y|)⟩
    have hfar := far_point_outside preR (edgeOrigin pd sd edge)
      (edgeDirection pd sd edge)
      ((construct_brect preR).2.xh - (construct_brect preR).2.xl)
      hin hw hh hd 1 (Or.inl rfl)
    have he1 : (edgeOrigin pd sd edge).x + (edgeDirection pd sd edge).x *
        (((construct_brect preR).2.xh - (construct_brect preR).2.xl) /
          max |(edgeDirection pd sd edge).x| |(edgeDirection pd sd edge).y|) =
        (edgeOrigin pd sd edge).x + 1 * ((edgeDirection pd sd edge).x *
        (((construct_brect preR).2.xh - (construct_brect preR).2.xl) /
          max |(edgeDirection pd sd edge).x| |(edgeDirection pd sd edge).y|)) := by
      ring
    have he2 : (edgeOrigin pd sd edge).y + (edgeDirection pd sd edge).y *
        (((construct_brect preR).2.xh - (construct_brect preR).2.xl) /
          max |(edgeDirection pd sd edge).x| |(edgeDirection pd sd edge).y|) =
        (edgeOrigin pd sd edge).y + 1 * ((edgeDirection pd sd edge).y *
        (((construct_brect preR).2.xh - (construct_brect preR).2.xl) /
          max |(edgeDirection pd sd edge).x| |(edgeDirection pd sd edge).y|)) := by
      ring
    rw [he1, he2]
    exact hfar

/-- C1 witness: the amended statement applied to the fully unbounded bisector
of the two point sites (0,0) and (10,0). -/
theorem clip_infinite_edge_substituted_outside_witness :
    insideRect ⟨0, 0, 10, 0⟩ (edgeOrigin [⟨0, 0⟩, ⟨10, 0⟩] [] exampleEdge) ∧
    ¬((edgeDirection [⟨0, 0⟩, ⟨10, 0⟩] [] exampleEdge).x = 0 ∧
      (edgeDirection [⟨0, 0⟩, ⟨10, 0⟩] [] exampleEdge).y = 0) ∧
    0 < max ((⟨0, 0, 10, 0⟩ : Rect).xh - (⟨0, 0, 10, 0⟩ : Rect).xl)
        ((⟨0, 0, 10, 0⟩ : Rect).yh - (⟨0, 0, 10, 0⟩ : Rect).yl) ∧
    ((clip_infinite_edge [⟨0, 0⟩, ⟨10, 0⟩] []
        (construct_brect ⟨0, 0, 10, 0⟩).2 exampleEdge).length = 2 ∧
     (exampleEdge.vertex0 = none →
       strictlyOutsideRect ⟨0, 0, 10, 0⟩
         ((clip_infinite_edge [⟨0, 0⟩, ⟨10, 0⟩] []
           (construct_brect ⟨0, 0, 10, 0⟩).2 exampleEdge).getD 0 ⟨0, 0⟩)) ∧
     (exampleEdge.vertex1 = none →
       strictlyOutsideRect ⟨0, 0, 10, 0⟩
         ((clip_infinite_edge [⟨0, 0⟩, ⟨10, 0⟩] []
           (construct_brect ⟨0, 0, 10, 0⟩).2 exampleEdge).getD 1 ⟨0, 0⟩))) := by
  have hin : insideRect ⟨0, 0, 10, 0⟩ (edgeOrigin [⟨0, 0⟩, ⟨10, 0⟩] [] exampleEdge) := by
    simp [insideRect, edgeOrigin, exampleEdge, retrieve_point, Cell.contains_point,
      SourceCategory.isPointCategory]
    norm_num
  have hd : ¬((edgeDirection [⟨0, 0⟩, ⟨10, 0⟩] [] exampleEdge).x = 0 ∧
      (edgeDirection [⟨0, 0⟩, ⟨10, 0⟩] [] exampleEdge).y = 0) := by
    simp [edgeDirection, exampleEdge, retrieve_point, Cell.contains_point,
      SourceCategory.isPointCategory]
  have hs : 0 < max ((⟨0, 0, 10, 0⟩ : Rect).xh - (⟨0, 0, 10, 0⟩ : Rect).xl)
      ((⟨0, 0, 10, 0⟩ : Rect).yh - (⟨0, 0, 10, 0⟩ : Rect).yl) := by
    norm_num [max_def]
  exact ⟨hin, hd, hs,
    clip_infinite_edge_substituted_outside [⟨0, 0⟩, ⟨10, 0⟩] [] ⟨0, 0, 10, 0⟩
      exampleEdge hin hd hs⟩

/-- C2 counterexample: for the single input site (0,0) the accumulated box is
degenerate, the finalized region collapses to the single point (0,0), and the
site is not strictly inside it. -/
theorem construct_brect_single_site_cex :
    (⟨0, 0⟩ : Point) ∈ [(⟨0, 0⟩ : Point)] ∧
    ¬ strictlyInsideRect (construct_brect (foldBrect [⟨0, 0⟩]).2).2 ⟨0, 0⟩ := by
  constructor
  · exact List.mem_singleton.mpr rfl
  · simp [foldBrect, update_brect, construct_brect, bloat, strictlyInsideRect]

/-- C2 (amended): whenever the accumulated box of a site list has positive
extent (the sites do not all coincide), the finalized region is a square that
strictly contains every site coordinate. -/
theorem construct_brect_strictly_contains_sites (pts : List Point) (p : Point)
    (hp : p ∈ pts)
    (hs : 0 < max ((foldBrect pts).2.xh - (foldBrect pts).2.xl)
        ((foldBrect pts).2.yh - (foldBrect pts).2.yl)) :
    strictlyInsideRect (construct_brect (foldBrect pts).2).2 p ∧
    (construct_brect (foldBrect pts).2).2.xh - (construct_brect (foldBrect pts).2).2.xl =
      (construct_brect (foldBrect pts).2).2.yh - (construct_brect (foldBrect pts).2).2.yl :=
  ⟨construct_brect_strict _ p (foldBrect_mem pts p hp) hs, construct_brect_square _⟩

/-- C2 witness: the amended statement applied to the two sites (0,0), (10,0). -/
theorem construct_brect_strictly_contains_sites_witness :
    (⟨0, 0⟩ : Point) ∈ [(⟨0, 0⟩ : Point), ⟨10, 0⟩] ∧
    0 < max ((foldBrect [⟨0, 0⟩, ⟨10, 0⟩]).2.xh - (foldBrect [⟨0, 0⟩, ⟨10, 0⟩]).2.xl)
        ((foldBrect [⟨0, 0⟩, ⟨10, 0⟩]).2.yh - (foldBrect [⟨0, 0⟩, ⟨10, 0⟩]).2.yl) ∧
    (strictlyInsideRect (construct_brect (foldBrect [⟨0, 0⟩, ⟨10, 0⟩]).2).2 ⟨0, 0⟩ ∧
     (construct_brect (foldBrect [⟨0, 0⟩, ⟨10, 0⟩]).2).2.xh -
        (construct_brect (foldBrect [⟨0, 0⟩, ⟨10, 0⟩]).2).2.xl =
      (construct_brect (foldBrect [⟨0, 0⟩, ⟨10, 0⟩]).2).2.yh -
        (construct_brect (foldBrect [⟨0, 0⟩, ⟨10, 0⟩]).2).2.yl) := by
  have hp : (⟨0, 0⟩ : Point) ∈ [(⟨0, 0⟩ : Point), ⟨10, 0⟩] := List.mem_cons_self ..
  have hs : 0 < max ((foldBrect [⟨0, 0⟩, ⟨10, 0⟩]).2.xh - (foldBrect [⟨0, 0⟩, ⟨10, 0⟩]).2.xl)
      ((foldBrect [⟨0, 0⟩, ⟨10, 0⟩]).2.yh - (foldBrect [⟨0, 0⟩, ⟨10, 0⟩]).2.yl) := by
    simp [foldBrect, update_brect, encompass]
  exact ⟨hp, hs, construct_brect_strictly_contains_sites _ _ hp hs⟩

/-- C3: after the exterior-classification pass has run over the whole
diagram, every half-edge carries the same color tag as its twin. -/
theorem color_exterior_pass_twin_symmetric (d : Diagram) (hwf : d.WF)
    (hinv : d.TwinInvol) :
    d.EdgeColorsSym (color_exterior_pass d (initState d)) := by
  apply sym_foldPass d hwf hinv
  · simp [initState]
  · intro e he
    rw [getEdge_initState, getEdge_initState]

/-- C3 witness: the symmetry theorem applied to the concrete two-edge
diagram. -/
theorem color_exterior_pass_twin_symmetric_witness :
    exampleDiagram.WF ∧ exampleDiagram.TwinInvol ∧
    exampleDiagram.EdgeColorsSym
      (color_exterior_pass exampleDiagram (initState exampleDiagram)) :=
  ⟨by decide, by decide,
    color_exterior_pass_twin_symmetric exampleDiagram (by decide) (by decide)⟩

/-- C4: running the exterior-classification pass twice yields exactly the
same edge and vertex coloring as running it once, because re-visiting an
already colored edge is a no-op. -/
theorem color_exterior_pass_idempotent (d : Diagram) :
    color_exterior_pass d (color_exterior_pass d (initState d)) =
      color_exterior_pass d (initState d) := by
  unfold color_exterior_pass
  apply foldPass_noop
  intro x hx hnf
  refine foldPass_colors d (List.range d.numEdges) (initState d) x hx ?_ hnf
  have hl : (initState d).ecolor.length = d.numEdges := by simp [initState]
  rw [hl]
  exact List.mem_range.mp hx

/-- C5: the clipper computes the scale factor as the bounding-region side
length divided by the larger coordinate magnitude of the direction vector,
substitutes origin minus direction times scale for an absent vertex0 and
origin plus direction times scale for an absent vertex1, and emits a present
endpoint unchanged. -/
theorem clip_infinite_edge_scale_and_substitution (pd : List Point)
    (sd : List Segment) (R : Rect) (edge : EdgeData)
    (hunb : edge.vertex0 = none ∨ edge.vertex1 = none) :
    clip_infinite_edge pd sd R edge =
      [edge.vertex0.getD
         ⟨(edgeOrigin pd sd edge).x - (edgeDirection pd sd edge).x *
            ((R.xh - R.xl) /
              max |(edgeDirection pd sd edge).x| |(edgeDirection pd sd edge).y|),
          (edgeOrigin pd sd edge).y - (edgeDirection pd sd edge).y *
            ((R.xh - R.xl) /
              max |(edgeDirection pd sd edge).x| |(edgeDirection pd sd edge).y|)⟩,
       edge.vertex1.getD
         ⟨(edgeOrigin pd sd edge).x + (edgeDirection pd sd edge).x *
            ((R.xh - R.xl) /
              max |(edgeDirection pd sd edge).x| |(edgeDirection pd sd edge).y|),
          (edgeOrigin pd sd edge).y + (edgeDirection pd sd edge).y *
            ((R.xh - R.xl) /
              max |(edgeDirection pd sd edge).x| |(edgeDirection pd sd edge).y|)⟩] := by
  cases h0 : edge.vertex0 <;> cases h1 : edge.vertex1 <;>
    simp [clip_infinite_edge, h0, h1]

/-- C5 witness: the formula theorem applied to the fully unbounded bisector
of the two-site scenario. -/
theorem clip_infinite_edge_scale_and_substitution_witness :
    (exampleEdge.vertex0 = none ∨ exampleEdge.vertex1 = none) ∧
    clip_infinite_edge [⟨0, 0⟩, ⟨10, 0⟩] [] ⟨-7, -12, 17, 12⟩ exampleEdge =
      [exampleEdge.vertex0.getD
         ⟨(edgeOrigin [⟨0, 0⟩, ⟨10, 0⟩] [] exampleEdge).x -
            (edgeDirection [⟨0, 0⟩, ⟨10, 0⟩] [] exampleEdge).x *
            (((⟨-7, -12, 17, 12⟩ : Rect).xh - (⟨-7, -12, 17, 12⟩ : Rect).xl) /
              max |(edgeDirection [⟨0, 0⟩, ⟨10, 0⟩] [] exampleEdge).x|
                |(edgeDirection [⟨0, 0⟩, ⟨10, 0⟩] [] exampleEdge).y|),
          (edgeOrigin [⟨0, 0⟩, ⟨10, 0⟩] [] exampleEdge).y -
            (edgeDirection [⟨0, 0⟩, ⟨10, 0⟩] [] exampleEdge).y *
            (((⟨-7, -12, 17, 12⟩ : Rect).xh - (⟨-7, -12, 17, 12⟩ : Rect).xl) /
              max |(edgeDirection [⟨0, 0⟩, ⟨10, 0⟩] [] exampleEdge).x|
                |(edgeDirection [⟨0, 0⟩, ⟨10, 0⟩] [] exampleEdge).y|)⟩,
       exampleEdge.vertex1.getD
         ⟨(edgeOrigin [⟨0, 0⟩, ⟨10, 0⟩] [] exampleEdge).x +
            (edgeDirection [⟨0, 0⟩, ⟨10, 0⟩] [] exampleEdge).x *
            (((⟨-7, -12, 17, 12⟩ : Rect).xh - (⟨-7, -12, 17, 12⟩ : Rect).xl) /
              max |(edgeDirection [⟨0, 0⟩, ⟨10, 0⟩] [] exampleEdge).x|
                |(edgeDirection [⟨0, 0⟩, ⟨10, 0⟩] [] exampleEdge).y|),
          (edgeOrigin [⟨0, 0⟩, ⟨10, 0⟩] [] exampleEdge).y +
            (edgeDirection [⟨0, 0⟩, ⟨10, 0⟩] [] exampleEdge).y *
            (((⟨-7, -12, 17, 12⟩ : Rect).xh - (⟨-7, -12, 17, 12⟩ : Rect).xl) /
              max |(edgeDirection [⟨0, 0⟩, ⟨10, 0⟩] [] exampleEdge).x|
                |(edgeDirection [⟨0, 0⟩, ⟨10, 0⟩] [] exampleEdge).y|)⟩] :=
  ⟨Or.inl rfl,
    clip_infinite_edge_scale_and_substitution [⟨0, 0⟩, ⟨10, 0⟩] []
      ⟨-7, -12, 17, 12⟩ exampleEdge (Or.inl rfl)⟩

/-- C6: for the two point sites (0,0) and (10,0) the fully unbounded bisector
clips to the two points (5,-24) and (5,24): the finalized region has side 24,
both points lie on the line x = 5, they are symmetric about the midpoint
(5,0), and each lies at distance 24 (the region side length) from (5,0). -/
theorem two_sites_bisector_clip_scenario :
    clip_infinite_edge [⟨0, 0⟩, ⟨10, 0⟩] []
        (construct_brect (foldBrect [⟨0, 0⟩, ⟨10, 0⟩]).2).2 exampleEdge =
      [⟨5, -24⟩, ⟨5, 24⟩] ∧
    (construct_brect (foldBrect [⟨0, 0⟩, ⟨10, 0⟩]).2).2.xh -
        (construct_brect (foldBrect [⟨0, 0⟩, ⟨10, 0⟩]).2).2.xl = 24 ∧
    ((⟨5, -24⟩ : Point).x = 5 ∧ (⟨5, 24⟩ : Point).x = 5) ∧
    (⟨5, -24⟩ : Point).y + (⟨5, 24⟩ : Point).y = 2 * 0 ∧
    (((⟨5, -24⟩ : Point).x - 5) ^ 2 + ((⟨5, -24⟩ : Point).y - 0) ^ 2 = 24 ^ 2 ∧
     ((⟨5, 24⟩ : Point).x - 5) ^ 2 + ((⟨5, 24⟩ : Point).y - 0) ^ 2 = 24 ^ 2) := by
  have hbr : (foldBrect [(⟨0, 0⟩ : Point), ⟨10, 0⟩]).2 = ⟨0, 0, 10, 0⟩ := by
    simp [foldBrect, update_brect, encompass]
  refine ⟨?_, ?_, ⟨rfl, rfl⟩, by norm_num, by norm_num, by norm_num⟩
  · rw [hbr]
    simp [clip_infinite_edge, edgeOrigin, edgeDirection, exampleEdge, retrieve_point,
      Cell.contains_point, SourceCategory.isPointCategory, construct_brect, bloat]
    norm_num [max_def]
  · rw [hbr]
    simp [construct_brect, bloat]
    norm_num [max_def]

/-- C7: for every edge the deviation tolerance handed to the external
parabola sampler equals 1e-3 times the side length of the finalized bounding
region. -/
theorem sample_curved_edge_tolerance (pd : List Point) (sd : List Segment)
    (preR : Rect) (edge : EdgeData) :
    (sample_curved_edge pd sd (construct_brect preR).2 edge).2.2 =
      (1 / 1000) * ((construct_brect preR).2.xh - (construct_brect preR).2.xl) := rfl

/-- C8: when the input contains no site at all, build returns right after the
empty-region guard: the site lists, diagram, color tags, region flag and all
render buffers are cleared, while the bounding rectangle, the shift and the
projection matrix are not touched (no finalization, no diagram construction,
no viewport update). -/
theorem build_empty_input_clears (builder : List Point → List Segment → Diagram)
    (s : WidgetState) :
    build builder ⟨[], []⟩ s = clear s ∧
    (clear s).point_data = [] ∧ (clear s).segment_data = [] ∧
    (clear s).brect_ready = false ∧ (clear s).vd = emptyDiagram ∧
    (clear s).vdColors = ⟨[], []⟩ ∧
    (clear s).gl_points = [] ∧ (clear s).gl_segments = [] ∧
    (clear s).gl_vertices = [] ∧ (clear s).gl_edges = [] ∧
    (clear s).brect = s.brect ∧ (clear s).shift = s.shift ∧
    (clear s).projection = s.projection := by
  refine ⟨?_, rfl, rfl, rfl, rfl, rfl, rfl, rfl, rfl, rfl, rfl, rfl, rfl⟩
  unfold build read_data
  simp only [List.foldl_nil]
  rw [if_neg]
  simp [clear]

/-- C9: past the explicit fuel bound the result of the flood fill no longer
depends on the available call depth on any diagram satisfying the adjacency
invariants (twin pairing, closed rotational lists): the recursion of
color_exterior terminates. -/
theorem color_exterior_fuel_stable (d : Diagram) (hwf : d.WF)
    (htwin : d.TwinInvol) (hring : d.RingClosed) (s : CState)
    (hlen : s.ecolor.length = d.numEdges) (e fuel : Nat)
    (hfuel : fuelBound d ≤ fuel) :
    color_exterior d fuel e s = color_exterior d (fuelBound d) e s :=
  ce_stable d hwf hring d.numEdges s e fuel (fuelBound d) hlen
    (uncolored_le_numEdges d s) hfuel (le_refl _)

/-- C9 witness: the fuel-stability theorem applied to the concrete two-edge
diagram with fuel 8 against the bound 7. -/
theorem color_exterior_fuel_stable_witness :
    exampleDiagram.WF ∧ exampleDiagram.TwinInvol ∧ exampleDiagram.RingClosed ∧
    (initState exampleDiagram).ecolor.length = exampleDiagram.numEdges ∧
    fuelBound exampleDiagram ≤ 8 ∧
    color_exterior exampleDiagram 8 0 (initState exampleDiagram) =
      color_exterior exampleDiagram (fuelBound exampleDiagram) 0
        (initState exampleDiagram) :=
  ⟨by decide, by decide, by decide, by decide, by decide,
    color_exterior_fuel_stable exampleDiagram (by decide) (by decide) (by decide)
      (initState exampleDiagram) (by decide) 0 8 (by decide)⟩

/-- C10: the edge buffers receive the raw sample coordinates (the recentering
by the stored shift is computed but discarded by prepare_edges), while the
point, segment-endpoint and vertex buffer builders all recenter by the shift
before upload. -/
theorem prepare_buffers_shift_discrepancy (shift : Point) (samples : List Point)
    (pd : List Point) (sd : List Segment) (vs : List Point) :
    prepare_edge_samples shift samples = samples.map (fun p => ⟨p.x, p.y⟩) ∧
    prepare_edge_samples shift samples = prepare_edge_samples ⟨0, 0⟩ samples ∧
    prepare_points shift pd sd =
      (pd ++ sd.flatMap (fun sg => [sg.low, sg.high])).map
        (fun p => ⟨p.x - shift.x, p.y - shift.y⟩) ∧
    prepare_segments shift sd =
      sd.flatMap (fun sg =>
        [⟨sg.low.x - shift.x, sg.low.y - shift.y⟩,
         ⟨sg.high.x - shift.x, sg.high.y - shift.y⟩]) ∧
    prepare_vertices shift vs = vs.map (fun p => ⟨p.x - shift.x, p.y - shift.y⟩) := by
  refine ⟨rfl, rfl, ?_, rfl, rfl⟩
  unfold prepare_points
  rw [List.map_append, List.map_flatMap]
  rfl

end VoronoiVisualizer
